import Mathlib

/-!
Shallow embedding of the parameter / value-coercion core of a CLI
parameter-binding library (`options.go`, `args.go`, `utils.go`).

Strings are modelled as `List Char`.  The Go standard-library helpers the
core calls (`strconv.ParseBool`, `strconv.ParseInt` with base 10 and bit
size 64, `strings.TrimSpace`, `strings.Split` with a one-character
separator) are modelled by the executable functions below.

A parameter's `Set`-style method is modelled as a pure state transformer
returning the new contents of the `into` slot together with a success flag
(`true` corresponds to a `nil` Go error).  On every error path the Go
methods return before writing through `into`, which the definitions mirror
by returning the old contents paired with `false`.
-/

/-- Model of Go `unicode.IsSpace`: the White_Space code points
(the Latin-1 fast path plus the White_Space range table). -/
def goIsSpace (c : Char) : Bool :=
  c = ' ' || c = '\t' || c = '\n' || c = Char.ofNat 0x0B || c = Char.ofNat 0x0C ||
  c = '\r' || c = Char.ofNat 0x85 || c = Char.ofNat 0xA0 || c = Char.ofNat 0x1680 ||
  (decide (0x2000 ≤ c.toNat) && decide (c.toNat ≤ 0x200A)) ||
  c = Char.ofNat 0x2028 || c = Char.ofNat 0x2029 || c = Char.ofNat 0x202F ||
  c = Char.ofNat 0x205F || c = Char.ofNat 0x3000

/-- Model of Go `strings.TrimSpace`: drop White_Space characters from both
ends of the string. -/
def trimSpace (s : List Char) : List Char :=
  ((s.dropWhile goIsSpace).reverse.dropWhile goIsSpace).reverse

/-- Model of Go `strings.Split` with a one-character separator: the list of
substrings between consecutive occurrences of `sep`.  As in Go,
`splitOnChar sep []` is `[[]]`. -/
def splitOnChar (sep : Char) : List Char → List (List Char)
  | [] => [[]]
  | c :: cs =>
    match splitOnChar sep cs with
    | [] => [[]]
    | h :: t => if c = sep then [] :: h :: t else (c :: h) :: t

/-- Value of a non-empty all-digit string, as accumulated by Go
`strconv.ParseUint` in base 10; `none` when the string is empty or holds a
non-digit character. -/
def digitsVal (ds : List Char) : Option Nat :=
  if ds ≠ [] && ds.all Char.isDigit then
    some (ds.foldl (fun a c => a * 10 + (c.toNat - 48)) 0)
  else
    none

/-- Model of Go `strconv.ParseInt(s, 10, 64)`: an optional sign followed by
at least one decimal digit, the value required to fit a signed 64-bit
integer.  `none` models a non-nil error (Go also returns an error on
overflow, which the callers in this library treat as failure). -/
def parseInt64 (s : List Char) : Option Int :=
  match s with
  | '+' :: rest =>
    match digitsVal rest with
    | some n => if n ≤ 2 ^ 63 - 1 then some (n : Int) else none
    | none => none
  | '-' :: rest =>
    match digitsVal rest with
    | some n => if n ≤ 2 ^ 63 then some (-(n : Int)) else none
    | none => none
  | _ =>
    match digitsVal s with
    | some n => if n ≤ 2 ^ 63 - 1 then some (n : Int) else none
    | none => none

/-- Model of Go `strconv.ParseBool`: accepts exactly the twelve literal
spellings and reports the parsed value. -/
def parseBool (s : List Char) : Option Bool :=
  if s = "1".toList ∨ s = "t".toList ∨ s = "T".toList ∨
     s = "TRUE".toList ∨ s = "true".toList ∨ s = "True".toList then
    some true
  else if s = "0".toList ∨ s = "f".toList ∨ s = "F".toList ∨
          s = "FALSE".toList ∨ s = "false".toList ∨ s = "False".toList then
    some false
  else
    none

/-- Embedding of `boolParam.Set` (options.go): parse the token with
`strconv.ParseBool`; on success store the parsed value, on error return
before writing. -/
def boolParam.Set (into : Bool) (s : List Char) : Bool × Bool :=
  match parseBool s with
  | none => (into, false)
  | some b => (b, true)

/-- Embedding of `boolParam.String` (options.go): `fmt.Sprintf` with verb
`%v` renders a Go bool as `true` or `false`. -/
def boolParam.String (into : Bool) : List Char :=
  if into then "true".toList else "false".toList

/-- Embedding of `stringParam.Set` (options.go): store the raw token
verbatim; never fails. -/
def stringParam.Set (into : List Char) (s : List Char) : List Char × Bool :=
  (s, true)

/-- Embedding of `intParam.Set` (options.go): parse the token with
`strconv.ParseInt(s, 10, 64)`; on success store the value, on error return
before writing. -/
def intParam.Set (into : Int) (s : List Char) : Int × Bool :=
  match parseInt64 s with
  | none => (into, false)
  | some i => (i, true)

/-- Embedding of `stringsParam.Set` (options.go) and the identical
`StringsArg.Set` (args.go): append the raw token to the sequence; never
fails. -/
def stringsParam.Set (into : List (List Char)) (s : List Char) :
    List (List Char) × Bool :=
  (into ++ [s], true)

/-- Embedding of `stringsParam.SetMulti` (options.go) and the identical
`StringsArg.SetMulti` (args.go): build a fresh slice holding every input
element trimmed of surrounding whitespace, and make it the new contents;
never fails. -/
def stringsParam.SetMulti (into : List (List Char)) (vs : List (List Char)) :
    List (List Char) × Bool :=
  (vs.map trimSpace, true)

/-- Embedding of `intsParam.Set` (options.go) and the identical
`IntsArg.Set` (args.go): parse the token with `strconv.ParseInt`; on
success append the value, on error return before writing. -/
def intsParam.Set (into : List Int) (s : List Char) : List Int × Bool :=
  match parseInt64 s with
  | none => (into, false)
  | some i => (into ++ [i], true)

/-- Loop body of `intsParam.SetMulti` (options.go lines 456-471): walk the
batch accumulating `newValue`; trim each element, skip the ones that become
empty, parse the rest, and abort with `none` on the first parse error. -/
def intsParam.SetMultiLoop : List (List Char) → List Int → Option (List Int)
  | [], acc => some acc
  | v :: rest, acc =>
    let v2 := trimSpace v
    if v2 = [] then
      intsParam.SetMultiLoop rest acc
    else
      match parseInt64 v2 with
      | none => none
      | some i => intsParam.SetMultiLoop rest (acc ++ [i])

/-- Embedding of `intsParam.SetMulti` (options.go) and the identical
`IntsArg.SetMulti` (args.go): run the loop over a fresh `newValue`; only
when every non-empty element parsed is `into` redirected to the new slice,
so an error leaves the destination untouched. -/
def intsParam.SetMulti (into : List Int) (vs : List (List Char)) :
    List Int × Bool :=
  match intsParam.SetMultiLoop vs [] with
  | none => (into, false)
  | some nv => (nv, true)

/-- Embedding of `mkOptStrs` (options.go): split the name specification on
the space character and prefix each token with `--` when its length
exceeds one, and with `-` otherwise. -/
def mkOptStrs (optName : List Char) : List (List Char) :=
  (splitOnChar ' ' optName).map (fun name =>
    (if name.length > 1 then "--".toList else "-".toList) ++ name)

/-- Abstract view of a `flag.Value` as consumed by `setFromEnv`
(utils.go): whether the dynamic `multiValued` capability holds (the type
assertion succeeds and `IsMultiValued()` answers true), and the `Set` /
`SetMulti` state transformers, each returning the new storage contents and
a success flag.  Every concrete parameter kind of this library instantiates
the model (see `intParamModel`, `intsParamModel`). -/
structure ParamModel (σ : Type) where
  isMulti : Bool
  set : σ → List Char → σ × Bool
  setMulti : σ → List (List Char) → σ × Bool

/-- Loop body of `setFromEnv` (utils.go) for one candidate name: trim the
name and skip it when empty; read the environment and skip when the value
is empty; otherwise apply `Set`, or `SetMulti` on the comma-split value
for a multi-valued parameter.  Returns the storage contents together with
`true` exactly when the applied call succeeded (which makes the caller
stop scanning). -/
def envTry {σ : Type} (p : ParamModel σ) (env : List Char → List Char)
    (st : σ) (rawName : List Char) : σ × Bool :=
  let ev := trimSpace rawName
  if ev = [] then (st, false)
  else
    let v := env ev
    if v = [] then (st, false)
    else if p.isMulti then p.setMulti st (splitOnChar ',' v)
    else p.set st v

/-- Candidate-scanning loop of `setFromEnv` (utils.go): try the names left
to right, returning as soon as one `Set`/`SetMulti` call succeeds; a
failed call leaves whatever state it produced and the scan continues. -/
def scanEnv {σ : Type} (p : ParamModel σ) (env : List Char → List Char) :
    List (List Char) → σ → σ
  | [], st => st
  | n :: rest, st =>
    match envTry p env st n with
    | (st2, true) => st2
    | (st2, false) => scanEnv p env rest st2

/-- Embedding of `setFromEnv` (utils.go): when the environment-variable
name list is non-empty, split it on the space character and scan the
candidates; never returns an error to its caller. -/
def setFromEnv {σ : Type} (p : ParamModel σ) (env : List Char → List Char)
    (envVars : List Char) (st : σ) : σ :=
  if 0 < envVars.length then scanEnv p env (splitOnChar ' ' envVars) st
  else st

/-- Specification-side restatement of the fallback algorithm: every
candidate is tried from the ORIGINAL state, and the result is the outcome
of the first succeeding candidate, or the original state when none
succeeds.  The correctness theorem identifies `setFromEnv` with this
function for parameters whose failing calls do not mutate storage. -/
def envFirstHit {σ : Type} (p : ParamModel σ) (env : List Char → List Char)
    (st : σ) : List (List Char) → σ
  | [] => st
  | n :: rest =>
    match envTry p env st n with
    | (st2, true) => st2
    | (_, false) => envFirstHit p env st rest

/-- The scalar integer parameter, packaged for `setFromEnv`: it does not
satisfy the `multiValued` type assertion, so `SetMulti` is never reached
(the field is a stub that is provably never invoked when `isMulti` is
false). -/
def intParamModel : ParamModel Int :=
  ⟨false, intParam.Set, fun st _ => (st, false)⟩

/-- The repeated-integer parameter, packaged for `setFromEnv`: it
satisfies the `multiValued` capability, so environment values are
comma-split and applied through `intsParam.SetMulti`. -/
def intsParamModel : ParamModel (List Int) :=
  ⟨true, intsParam.Set, intsParam.SetMulti⟩

/-- Abstract wrapped `flag.Value` held by `VarOpt` / `VarArg`:
`hasMultiCap` records whether the dynamic type assertion to `multiValued`
succeeds, `multiFlag` what `IsMultiValued()` answers, and `setMultiFn` the
success flag of the wrapped `SetMulti`. -/
structure VarValue where
  hasMultiCap : Bool
  multiFlag : Bool
  setMultiFn : List (List Char) → Bool

/-- Outcome of calling `SetMulti` on a Var kind: either the call panicked,
or it returned with the given success flag. -/
inductive VarCall where
  | panicked : VarCall
  | returned : Bool → VarCall
deriving DecidableEq

/-- Embedding of `VarOpt.SetMulti` (options.go lines 137-144): panic
unless the wrapped value asserts to `multiValued` and reports
`IsMultiValued()`; otherwise delegate to the wrapped `SetMulti`. -/
def VarOpt.SetMulti (vo : VarValue) (vs : List (List Char)) : VarCall :=
  if vo.hasMultiCap && vo.multiFlag then VarCall.returned (vo.setMultiFn vs)
  else VarCall.panicked

/-- Embedding of `VarArg.SetMulti` (args.go lines 238-245), textually
identical to `VarOpt.SetMulti`. -/
def VarArg.SetMulti (va : VarValue) (vs : List (List Char)) : VarCall :=
  if va.hasMultiCap && va.multiFlag then VarCall.returned (va.setMultiFn vs)
  else VarCall.panicked

/-- Heap of Go slices used to observe pointer redirection: `mem` maps slice
addresses to contents and `next` is the next fresh address; a parameter's
`into` field is an address, and the caller's declaration-time alias is
another copy of that address. -/
structure Slices (α : Type) where
  next : Nat
  mem : Nat → List α

/-- Pointer-level embedding of `stringsParam.Set` (options.go): append the
raw token in place through the current `into` address. -/
def stringsParam.SetPtr (into : Nat) (h : Slices (List Char))
    (s : List Char) : Nat × Slices (List Char) :=
  (into, ⟨h.next, fun a => if a = into then h.mem into ++ [s] else h.mem a⟩)

/-- Pointer-level embedding of `stringsParam.SetMulti` (options.go):
allocate `newValue` at a fresh address holding the trimmed batch and
redirect `into` to it (`sa.into = &newValue`); the old slice is not
written. -/
def stringsParam.SetMultiPtr (into : Nat) (h : Slices (List Char))
    (vs : List (List Char)) : Nat × Slices (List Char) :=
  (h.next, ⟨h.next + 1,
    fun a => if a = h.next then vs.map trimSpace else h.mem a⟩)

/-- Pointer-level embedding of `intsParam.Set` (options.go): on success
append the parsed value in place through the current `into` address, on
error return before writing. -/
def intsParam.SetPtr (into : Nat) (h : Slices Int) (s : List Char) :
    (Nat × Slices Int) × Bool :=
  match parseInt64 s with
  | none => ((into, h), false)
  | some i =>
    ((into, ⟨h.next, fun a => if a = into then h.mem into ++ [i] else h.mem a⟩),
      true)

/-- Pointer-level embedding of `intsParam.SetMulti` (options.go): on
success allocate `newValue` at a fresh address and redirect `into` to it;
on error neither the heap nor the pointer changes. -/
def intsParam.SetMultiPtr (into : Nat) (h : Slices Int)
    (vs : List (List Char)) : (Nat × Slices Int) × Bool :=
  match intsParam.SetMultiLoop vs [] with
  | none => ((into, h), false)
  | some nv =>
    ((h.next, ⟨h.next + 1, fun a => if a = h.next then nv else h.mem a⟩), true)

/-- Specification-side sequential parse of a batch: `some` of the parsed
integers in order when every element parses, `none` otherwise. -/
def parseAllInts : List (List Char) → Option (List Int)
  | [] => some []
  | v :: vs =>
    match parseInt64 v, parseAllInts vs with
    | some i, some l => some (i :: l)
    | _, _ => none

/-- Specification-side candidate names consulted by `setFromEnv`: split on
the space character, trim each name, drop the ones that become empty. -/
def envCandidates (envVars : List Char) : List (List Char) :=
  ((splitOnChar ' ' envVars).map trimSpace).filter (fun n => n ≠ [])

/-- Specification-side candidate scan over already-cleaned names: no
trimming and no empty-name skipping, otherwise the loop of `setFromEnv`. -/
def scanEnvNamed {σ : Type} (p : ParamModel σ) (env : List Char → List Char) :
    List (List Char) → σ → σ
  | [], st => st
  | n :: rest, st =>
    let v := env n
    if v = [] then scanEnvNamed p env rest st
    else
      match (if p.isMulti then p.setMulti st (splitOnChar ',' v) else p.set st v) with
      | (st2, true) => st2
      | (st2, false) => scanEnvNamed p env rest st2

lemma setMultiLoop_spec : ∀ (vs : List (List Char)) (acc : List Int),
    intsParam.SetMultiLoop vs acc =
      (parseAllInts ((vs.map trimSpace).filter (fun v => v ≠ []))).map
        (fun l => acc ++ l)
  | [], acc => by simp [intsParam.SetMultiLoop, parseAllInts]
  | v :: rest, acc => by
    by_cases h : trimSpace v = []
    · simp only [intsParam.SetMultiLoop, h, if_pos rfl, List.map_cons,
        List.filter_cons, decide_not]
      rw [setMultiLoop_spec rest acc]
      simp [h]
    · cases hp : parseInt64 (trimSpace v) with
      | none =>
        simp only [intsParam.SetMultiLoop, List.map_cons, List.filter_cons]
        rw [if_neg h, hp]
        simp [h, parseAllInts, hp]
      | some i =>
        simp only [intsParam.SetMultiLoop, List.map_cons, List.filter_cons]
        rw [if_neg h, hp]
        show intsParam.SetMultiLoop rest (acc ++ [i]) = _
        rw [setMultiLoop_spec rest (acc ++ [i])]
        have hd : decide (trimSpace v ≠ []) = true := by simpa using h
        rw [if_pos hd]
        simp only [parseAllInts, hp]
        cases hl : parseAllInts ((rest.map trimSpace).filter (fun v => v ≠ [])) with
        | none => simp [hl]
        | some l => simp [hl]

lemma intParam_set_fail_frame (st : Int) (v : List Char)
    (hfail : (intParam.Set st v).2 = false) : (intParam.Set st v).1 = st := by
  unfold intParam.Set at *
  cases hp : parseInt64 v with
  | none => rfl
  | some i => rw [hp] at hfail; exact absurd hfail (by simp)

/-- Claim C1: repeated-integer `SetMulti` trims every element, skips the
ones that become empty, parses the rest as base-10 integers; when any
non-empty element fails to parse the call errors and the destination is
exactly the previous sequence, and when all parse it succeeds holding the
parsed integers in input order. -/
theorem intsParam_setMulti_atomic (into : List Int) (vs : List (List Char)) :
    intsParam.SetMulti into vs =
      match parseAllInts ((vs.map trimSpace).filter (fun v => v ≠ [])) with
      | some l => (l, true)
      | none => (into, false) := by
  unfold intsParam.SetMulti
  rw [setMultiLoop_spec]
  cases parseAllInts ((vs.map trimSpace).filter (fun v => v ≠ [])) <;> simp

/-- Claim C2: repeated-string `Set` appends exactly the raw token and never
fails; `SetMulti` replaces the sequence wholesale with the whitespace-
trimmed batch, never fails, and preserves ordering, length and empty
elements (element `i` of the result is element `i` of the input, trimmed). -/
theorem stringsParam_append_replace :
    (∀ (into : List (List Char)) (s : List Char),
        stringsParam.Set into s = (into ++ [s], true)) ∧
    (∀ (into : List (List Char)) (vs : List (List Char)),
        stringsParam.SetMulti into vs = (vs.map trimSpace, true)) ∧
    (∀ (into : List (List Char)) (vs : List (List Char)),
        ((stringsParam.SetMulti into vs).1).length = vs.length) ∧
    (∀ (into : List (List Char)) (vs : List (List Char)) (i : Nat),
        ((stringsParam.SetMulti into vs).1).getD i [] =
          trimSpace (vs.getD i [])) := by
  refine ⟨fun _ _ => rfl, fun _ _ => rfl, fun _ vs => ?_, fun _ vs i => ?_⟩
  · simp [stringsParam.SetMulti]
  · simp only [stringsParam.SetMulti, List.getD_eq_getElem?_getD,
      List.getElem?_map]
    cases hv : vs[i]? with
    | none => rfl
    | some a => rfl

/-- Claim C4 counterexample: the code prefixes a single dash to every token
of length at most one, so on the specification `"f  force"` (two spaces,
hence an empty middle token) the output differs from the claimed rule
"one dash exactly when the token has exactly one character". -/
theorem mkOptStrs_exact_rule_counterexample :
    mkOptStrs ("f  force".toList) ≠
      (splitOnChar ' ' ("f  force".toList)).map (fun name =>
        (if name.length = 1 then "-".toList else "--".toList) ++ name) := by
  decide

/-- Claim C4 as amended: `mkOptStrs` splits on spaces and prefixes one dash
when the token's length is AT MOST one (an empty token, which arises from
leading, trailing or doubled spaces, also gets a single dash), two dashes
otherwise; the three quoted examples hold unchanged. -/
theorem mkOptStrs_amended :
    (∀ s : List Char, mkOptStrs s =
        (splitOnChar ' ' s).map (fun name =>
          (if name.length ≤ 1 then "-".toList else "--".toList) ++ name)) ∧
    mkOptStrs ("f force".toList) = ["-f".toList, "--force".toList] ∧
    mkOptStrs ("x".toList) = ["-x".toList] ∧
    mkOptStrs ("verbose v".toList) = ["--verbose".toList, "-v".toList] := by
  refine ⟨fun s => ?_, by decide, by decide, by decide⟩
  unfold mkOptStrs
  apply List.map_congr_left
  intro n _
  by_cases hn : n.length ≤ 1
  · rw [if_pos hn, if_neg (by omega)]
  · rw [if_neg hn, if_pos (by omega)]

/-- Claim C5: `intParam.Set` succeeds exactly on the strings accepted by
the base-10 signed-integer parser, storing the numeric value (in
particular `"01"` stores `1`), and fails leaving the stored value
unchanged otherwise. -/
theorem intParam_set_parse :
    (∀ (into : Int) (s : List Char) (n : Int), parseInt64 s = some n →
        intParam.Set into s = (n, true)) ∧
    (∀ (into : Int) (s : List Char), parseInt64 s = none →
        intParam.Set into s = (into, false)) ∧
    intParam.Set 0 ("01".toList) = (1, true) ∧
    intParam.Set 7 ("abc".toList) = (7, false) := by
  refine ⟨fun into s n hs => ?_, fun into s hs => ?_, by decide, by decide⟩
  · simp [intParam.Set, hs]
  · simp [intParam.Set, hs]

/-- Witness for claim C5 at the quoted input `"01"`. -/
theorem intParam_set_parse_witness :
    parseInt64 ("01".toList) = some 1 ∧
    intParam.Set 5 ("01".toList) = (1, true) :=
  ⟨by decide, intParam_set_parse.1 5 ("01".toList) 1 (by decide)⟩

/-- Claim C6: on every valid boolean literal `boolParam.Set` succeeds and a
subsequent `String()` renders the canonical `true`/`false` text matching
the parsed value; on every other string it fails leaving the stored
boolean unchanged. -/
theorem boolParam_set_roundtrip :
    (∀ (into : Bool) (s : List Char) (b : Bool), parseBool s = some b →
        boolParam.Set into s = (b, true) ∧
        boolParam.String (boolParam.Set into s).1 =
          (if b then "true".toList else "false".toList)) ∧
    (∀ (into : Bool) (s : List Char), parseBool s = none →
        boolParam.Set into s = (into, false)) ∧
    boolParam.String (boolParam.Set false ("TRUE".toList)).1 = "true".toList := by
  refine ⟨fun into s b hs => ⟨?_, ?_⟩, fun into s hs => ?_, by decide⟩
  · simp [boolParam.Set, hs]
  · simp [boolParam.Set, hs, boolParam.String]
  · simp [boolParam.Set, hs]

/-- Witness for claim C6 at the non-canonical literal `"TRUE"`. -/
theorem boolParam_set_roundtrip_witness :
    parseBool ("TRUE".toList) = some true ∧
    (boolParam.Set false ("TRUE".toList) = (true, true) ∧
      boolParam.String (boolParam.Set false ("TRUE".toList)).1 =
        (if true then "true".toList else "false".toList)) :=
  ⟨by decide, boolParam_set_roundtrip.1 false ("TRUE".toList) true (by decide)⟩

/-- Claim C7: calling `SetMulti` on a Var-kind option or argument whose
wrapped value lacks the multi-valued capability (or reports
`IsMultiValued()` false) panics rather than returning an error; when the
wrapped value declares the capability, the call delegates to the wrapped
`SetMulti`. -/
theorem varParam_setMulti_contract :
    (∀ (vo : VarValue) (vs : List (List Char)),
        vo.hasMultiCap = false ∨ vo.multiFlag = false →
        VarOpt.SetMulti vo vs = VarCall.panicked ∧
        VarArg.SetMulti vo vs = VarCall.panicked) ∧
    (∀ (vo : VarValue) (vs : List (List Char)),
        vo.hasMultiCap = true → vo.multiFlag = true →
        VarOpt.SetMulti vo vs = VarCall.returned (vo.setMultiFn vs) ∧
        VarArg.SetMulti vo vs = VarCall.returned (vo.setMultiFn vs)) := by
  constructor
  · rintro vo vs (h | h) <;> constructor <;>
      simp [VarOpt.SetMulti, VarArg.SetMulti, h]
  · intro vo vs h1 h2
    constructor <;> simp [VarOpt.SetMulti, VarArg.SetMulti, h1, h2]

/-- Witness for claim C7: a wrapped value without the capability panics,
one with it delegates. -/
theorem varParam_setMulti_contract_witness :
    (VarOpt.SetMulti ⟨false, true, fun _ => true⟩ [] = VarCall.panicked ∧
      VarArg.SetMulti ⟨false, true, fun _ => true⟩ [] = VarCall.panicked) ∧
    (VarOpt.SetMulti ⟨true, true, fun _ => false⟩ [] = VarCall.returned false ∧
      VarArg.SetMulti ⟨true, true, fun _ => false⟩ [] = VarCall.returned false) :=
  ⟨varParam_setMulti_contract.1 ⟨false, true, fun _ => true⟩ [] (Or.inl rfl),
    varParam_setMulti_contract.2 ⟨true, true, fun _ => false⟩ [] rfl rfl⟩

lemma envTry_fail_frame {σ : Type} (p : ParamModel σ)
    (env : List Char → List Char) (st : σ) (n : List Char)
    (hset : ∀ v, (p.set st v).2 = false → (p.set st v).1 = st)
    (hsm : ∀ vs, (p.setMulti st vs).2 = false → (p.setMulti st vs).1 = st)
    (hfail : (envTry p env st n).2 = false) :
    envTry p env st n = (st, false) := by
  unfold envTry at *
  by_cases h1 : trimSpace n = []
  · simp [h1]
  · rw [if_neg h1] at *
    by_cases h2 : env (trimSpace n) = []
    · simp [h2]
    · rw [if_neg h2] at *
      by_cases h3 : p.isMulti
      · rw [if_pos h3] at *
        rw [Prod.ext_iff]
        exact ⟨hsm _ hfail, hfail⟩
      · rw [if_neg h3] at *
        rw [Prod.ext_iff]
        exact ⟨hset _ hfail, hfail⟩

lemma scanEnv_eq_firstHit {σ : Type} (p : ParamModel σ)
    (env : List Char → List Char) (st : σ)
    (hset : ∀ v, (p.set st v).2 = false → (p.set st v).1 = st)
    (hsm : ∀ vs, (p.setMulti st vs).2 = false → (p.setMulti st vs).1 = st) :
    ∀ names : List (List Char),
      scanEnv p env names st = envFirstHit p env st names := by
  intro names
  induction names with
  | nil => rfl
  | cons n rest ih =>
    show (match envTry p env st n with
          | (st2, true) => st2
          | (st2, false) => scanEnv p env rest st2) =
        (match envTry p env st n with
          | (st2, true) => st2
          | (_, false) => envFirstHit p env st rest)
    by_cases hb : (envTry p env st n).2 = false
    · have hfr := envTry_fail_frame p env st n hset hsm hb
      rw [hfr]
      exact ih
    · rw [Bool.not_eq_false] at hb
      have hmk : envTry p env st n = ((envTry p env st n).1, true) := by
        rw [Prod.ext_iff]
        exact ⟨rfl, hb⟩
      rw [hmk]

/-- Claim C3: for every parameter whose failing calls do not mutate
storage (true of every kind in this library, see the witness) and every
space-separated candidate list, `setFromEnv` equals the first-hit
specification: every candidate is tried against the original storage, the
scan stops at the first name whose `Set`/`SetMulti` succeeds, unset or
empty values are skipped, no error is surfaced (the function is total into
the state type), and when no candidate succeeds the storage keeps its
caller-initialized value. -/
theorem setFromEnv_at_most_once {σ : Type} (p : ParamModel σ)
    (env : List Char → List Char) (envVars : List Char) (st : σ)
    (hset : ∀ v, (p.set st v).2 = false → (p.set st v).1 = st)
    (hsm : ∀ vs, (p.setMulti st vs).2 = false → (p.setMulti st vs).1 = st) :
    setFromEnv p env envVars st =
      envFirstHit p env st (splitOnChar ' ' envVars) := by
  unfold setFromEnv
  by_cases h : 0 < envVars.length
  · rw [if_pos h]
    exact scanEnv_eq_firstHit p env st hset hsm _
  · rw [if_neg h]
    have hnil : envVars = [] := by
      cases envVars with
      | nil => rfl
      | cons c cs => exact absurd (by simp) h
    subst hnil
    rfl

/-- Witness for claim C3: the scalar integer parameter with candidates
`"A B"` where only `B` is bound (to `"5"`). -/
theorem setFromEnv_at_most_once_witness :
    setFromEnv intParamModel
        (fun n => if n = "B".toList then "5".toList else []) ("A B".toList) 0 =
      envFirstHit intParamModel
        (fun n => if n = "B".toList then "5".toList else []) 0
        (splitOnChar ' ' ("A B".toList)) ∧
    envFirstHit intParamModel
        (fun n => if n = "B".toList then "5".toList else []) 0
        (splitOnChar ' ' ("A B".toList)) = 5 :=
  ⟨setFromEnv_at_most_once intParamModel _ ("A B".toList) 0
      (fun v => intParam_set_fail_frame 0 v) (fun _ _ => rfl),
    by decide⟩

/-- Claim C8 counterexample: the candidate name list is split on the space
character only, so binding only `B` (to `"5"`) reaches the integer
parameter when the names are separated by a space but not when they are
separated by a tab — the claim that any whitespace separation yields the
same candidate names is false. -/
theorem setFromEnv_whitespace_split_counterexample :
    setFromEnv intParamModel
        (fun n => if n = "B".toList then "5".toList else [])
        ("A\tB".toList) 0 = 0 ∧
    setFromEnv intParamModel
        (fun n => if n = "B".toList then "5".toList else [])
        ("A B".toList) 0 = 5 := by
  constructor <;> decide

lemma scanEnv_eq_named {σ : Type} (p : ParamModel σ)
    (env : List Char → List Char) :
    ∀ (names : List (List Char)) (st : σ),
      scanEnv p env names st =
        scanEnvNamed p env ((names.map trimSpace).filter (fun m => m ≠ [])) st
  | [], st => rfl
  | n :: rest, st => by
    rw [List.map_cons, List.filter_cons]
    show (match envTry p env st n with
          | (st2, true) => st2
          | (st2, false) => scanEnv p env rest st2) = _
    by_cases h1 : trimSpace n = []
    · rw [if_neg (show ¬(decide (trimSpace n ≠ []) = true) by simp [h1])]
      have htry : envTry p env st n = (st, false) := by simp [envTry, h1]
      rw [htry]
      exact scanEnv_eq_named p env rest st
    · rw [if_pos (show decide (trimSpace n ≠ []) = true by simpa using h1)]
      by_cases h2 : env (trimSpace n) = []
      · have htry : envTry p env st n = (st, false) := by
          simp [envTry, h1, h2]
        have hnamed : scanEnvNamed p env
            (trimSpace n :: (rest.map trimSpace).filter (fun m => m ≠ [])) st =
            scanEnvNamed p env ((rest.map trimSpace).filter (fun m => m ≠ [])) st := by
          simp [scanEnvNamed, h2]
        rw [htry, hnamed]
        exact scanEnv_eq_named p env rest st
      · have htry : envTry p env st n =
            (if p.isMulti then p.setMulti st (splitOnChar ',' (env (trimSpace n)))
             else p.set st (env (trimSpace n))) := by
          simp [envTry, h1, h2]
        have hnamed : scanEnvNamed p env
            (trimSpace n :: (rest.map trimSpace).filter (fun m => m ≠ [])) st =
            (match (if p.isMulti then p.setMulti st (splitOnChar ',' (env (trimSpace n)))
                    else p.set st (env (trimSpace n))) with
              | (st2, true) => st2
              | (st2, false) =>
                scanEnvNamed p env ((rest.map trimSpace).filter (fun m => m ≠ [])) st2) := by
          simp [scanEnvNamed, h2]
        rw [htry, hnamed]
        cases hA : (if p.isMulti then p.setMulti st (splitOnChar ',' (env (trimSpace n)))
                    else p.set st (env (trimSpace n))) with
        | mk st2 b =>
          cases b with
          | true => rfl
          | false => exact scanEnv_eq_named p env rest st2

/-- Claim C8 as amended: the environment-variable name list is split on the
SPACE character (not on arbitrary whitespace), each resulting name is
whitespace-trimmed, and names that become empty are skipped — so names
separated by runs of spaces yield the same candidates, while other
whitespace characters do not act as separators (a tab-joined pair stays
one candidate name). -/
theorem setFromEnv_candidates_amended :
    (∀ (σ : Type) (p : ParamModel σ) (env : List Char → List Char)
        (envVars : List Char) (st : σ),
        setFromEnv p env envVars st =
          scanEnvNamed p env (envCandidates envVars) st) ∧
    envCandidates ("A  B ".toList) = ["A".toList, "B".toList] ∧
    envCandidates ("A\tB".toList) = ["A\tB".toList] := by
  refine ⟨fun σ p env envVars st => ?_, by decide, by decide⟩
  unfold setFromEnv envCandidates
  by_cases h : 0 < envVars.length
  · rw [if_pos h]
    exact scanEnv_eq_named p env _ st
  · rw [if_neg h]
    have hnil : envVars = [] := by
      cases envVars with
      | nil => rfl
      | cons c cs => exact absurd (by simp) h
    subst hnil
    rfl

/-- Claim C9: a successful `SetMulti` on a repeated-string or
repeated-integer parameter redirects the parameter's `into` pointer to a
freshly allocated slice; the previously referenced slice keeps its
contents, so an alias to the original address never observes the batch,
and a subsequent `Set` appends through the new address only. -/
theorem setMulti_fresh_slice :
    (∀ (into : Nat) (h : Slices (List Char)) (vs : List (List Char))
        (s : List Char),
        into < h.next →
        (stringsParam.SetMultiPtr into h vs).1 ≠ into ∧
        (stringsParam.SetMultiPtr into h vs).2.mem into = h.mem into ∧
        (stringsParam.SetMultiPtr into h vs).2.mem
            (stringsParam.SetMultiPtr into h vs).1 = vs.map trimSpace ∧
        (stringsParam.SetPtr (stringsParam.SetMultiPtr into h vs).1
            (stringsParam.SetMultiPtr into h vs).2 s).2.mem into = h.mem into ∧
        (stringsParam.SetPtr (stringsParam.SetMultiPtr into h vs).1
            (stringsParam.SetMultiPtr into h vs).2 s).2.mem
            (stringsParam.SetMultiPtr into h vs).1 =
          vs.map trimSpace ++ [s]) ∧
    (∀ (into : Nat) (h : Slices Int) (vs : List (List Char)) (s : List Char)
        (i : Int) (nv : List Int),
        into < h.next →
        intsParam.SetMultiLoop vs [] = some nv →
        parseInt64 s = some i →
        (intsParam.SetMultiPtr into h vs).2 = true ∧
        (intsParam.SetMultiPtr into h vs).1.1 ≠ into ∧
        (intsParam.SetMultiPtr into h vs).1.2.mem into = h.mem into ∧
        (intsParam.SetMultiPtr into h vs).1.2.mem
            (intsParam.SetMultiPtr into h vs).1.1 = nv ∧
        (intsParam.SetPtr (intsParam.SetMultiPtr into h vs).1.1
            (intsParam.SetMultiPtr into h vs).1.2 s).1.2.mem into = h.mem into ∧
        (intsParam.SetPtr (intsParam.SetMultiPtr into h vs).1.1
            (intsParam.SetMultiPtr into h vs).1.2 s).1.2.mem
            (intsParam.SetMultiPtr into h vs).1.1 = nv ++ [i]) := by
  constructor
  · intro into h vs s hlt
    have hne : into ≠ h.next := Nat.ne_of_lt hlt
    refine ⟨?_, ?_, ?_, ?_, ?_⟩ <;>
      simp [stringsParam.SetMultiPtr, stringsParam.SetPtr, hne, Ne.symm hne]
  · intro into h vs s i nv hlt hloop hp
    have hne : into ≠ h.next := Nat.ne_of_lt hlt
    refine ⟨?_, ?_, ?_, ?_, ?_, ?_⟩ <;>
      simp [intsParam.SetMultiPtr, intsParam.SetPtr, hloop, hp, hne, Ne.symm hne]

/-- Tiny concrete heap of string slices for the claim C9 witness: one
allocated empty slice at address `0`. -/
def stringsHeap0 : Slices (List Char) := ⟨1, fun _ => []⟩

/-- Tiny concrete heap of integer slices for the claim C9 witness: one
allocated empty slice at address `0`. -/
def intsHeap0 : Slices Int := ⟨1, fun _ => []⟩

/-- Witness for claim C9 on one-element heaps and one-element batches. -/
theorem setMulti_fresh_slice_witness :
    ((0 : Nat) < stringsHeap0.next ∧
      ((stringsParam.SetMultiPtr 0 stringsHeap0 ["a".toList]).1 ≠ 0 ∧
        (stringsParam.SetMultiPtr 0 stringsHeap0 ["a".toList]).2.mem 0 =
          stringsHeap0.mem 0 ∧
        (stringsParam.SetMultiPtr 0 stringsHeap0 ["a".toList]).2.mem
            (stringsParam.SetMultiPtr 0 stringsHeap0 ["a".toList]).1 =
          ["a".toList].map trimSpace ∧
        (stringsParam.SetPtr (stringsParam.SetMultiPtr 0 stringsHeap0 ["a".toList]).1
            (stringsParam.SetMultiPtr 0 stringsHeap0 ["a".toList]).2
            "b".toList).2.mem 0 = stringsHeap0.mem 0 ∧
        (stringsParam.SetPtr (stringsParam.SetMultiPtr 0 stringsHeap0 ["a".toList]).1
            (stringsParam.SetMultiPtr 0 stringsHeap0 ["a".toList]).2
            "b".toList).2.mem
            (stringsParam.SetMultiPtr 0 stringsHeap0 ["a".toList]).1 =
          ["a".toList].map trimSpace ++ ["b".toList])) ∧
    ((0 : Nat) < intsHeap0.next ∧
      intsParam.SetMultiLoop ["1".toList] [] = some [1] ∧
      parseInt64 ("2".toList) = some 2 ∧
      ((intsParam.SetMultiPtr 0 intsHeap0 ["1".toList]).2 = true ∧
        (intsParam.SetMultiPtr 0 intsHeap0 ["1".toList]).1.1 ≠ 0 ∧
        (intsParam.SetMultiPtr 0 intsHeap0 ["1".toList]).1.2.mem 0 =
          intsHeap0.mem 0 ∧
        (intsParam.SetMultiPtr 0 intsHeap0 ["1".toList]).1.2.mem
            (intsParam.SetMultiPtr 0 intsHeap0 ["1".toList]).1.1 = [1] ∧
        (intsParam.SetPtr (intsParam.SetMultiPtr 0 intsHeap0 ["1".toList]).1.1
            (intsParam.SetMultiPtr 0 intsHeap0 ["1".toList]).1.2
            "2".toList).1.2.mem 0 = intsHeap0.mem 0 ∧
        (intsParam.SetPtr (intsParam.SetMultiPtr 0 intsHeap0 ["1".toList]).1.1
            (intsParam.SetMultiPtr 0 intsHeap0 ["1".toList]).1.2
            "2".toList).1.2.mem
            (intsParam.SetMultiPtr 0 intsHeap0 ["1".toList]).1.1 =
          [1] ++ [2])) :=
  ⟨⟨by decide,
      setMulti_fresh_slice.1 0 stringsHeap0 ["a".toList] "b".toList (by decide)⟩,
    ⟨by decide, by decide, by decide,
      setMulti_fresh_slice.2 0 intsHeap0 ["1".toList] "2".toList 2 [1]
        (by decide) (by decide) (by decide)⟩⟩

lemma setMultiLoop_all_empty :
    ∀ (vs : List (List Char)) (acc : List Int),
      (∀ v ∈ vs, trimSpace v = []) →
      intsParam.SetMultiLoop vs acc = some acc
  | [], _, _ => rfl
  | v :: rest, acc, hall => by
    have h1 : trimSpace v = [] := hall v (by simp)
    have h2 := setMultiLoop_all_empty rest acc (fun w hw => hall w (by simp [hw]))
    simp [intsParam.SetMultiLoop, h1, h2]

/-- Claim C10: a repeated-integer batch whose elements all trim to the
empty string makes `SetMulti` succeed with the empty sequence, and inside
the environment fallback such a candidate (for example a value made of
commas and whitespace only) counts as a success and ends the scan
regardless of the remaining candidate names. -/
theorem intsSetMulti_empty_batch :
    (∀ (into : List Int) (vs : List (List Char)),
        (∀ v ∈ vs, trimSpace v = []) →
        intsParam.SetMulti into vs = ([], true)) ∧
    (∀ (env : List Char → List Char) (n : List Char)
        (rest : List (List Char)) (st : List Int),
        trimSpace n ≠ [] → env (trimSpace n) ≠ [] →
        (∀ w ∈ splitOnChar ',' (env (trimSpace n)), trimSpace w = []) →
        scanEnv intsParamModel env (n :: rest) st = []) := by
  constructor
  · intro into vs hall
    unfold intsParam.SetMulti
    rw [setMultiLoop_all_empty vs [] hall]
  · intro env n rest st h1 h2 hall
    have hsm : intsParam.SetMulti st
        (splitOnChar ',' (env (trimSpace n))) = ([], true) := by
      unfold intsParam.SetMulti
      rw [setMultiLoop_all_empty _ [] hall]
    have htry : envTry intsParamModel env st n = ([], true) := by
      simp [envTry, h1, h2, intsParamModel, hsm]
    simp only [scanEnv, htry]

/-- Witness for claim C10: a blank element batch, and a fallback scan whose
first candidate's value is a lone comma. -/
theorem intsSetMulti_empty_batch_witness :
    ((∀ v ∈ [" ".toList], trimSpace v = []) ∧
      intsParam.SetMulti [7] [" ".toList] = ([], true)) ∧
    scanEnv intsParamModel (fun _ => ",".toList)
      ("A".toList :: ["B".toList]) [3] = [] :=
  ⟨⟨by decide, intsSetMulti_empty_batch.1 [7] [" ".toList] (by decide)⟩,
    intsSetMulti_empty_batch.2 (fun _ => ",".toList) ("A".toList)
      ["B".toList] [3] (by decide) (by decide) (by decide)⟩
